import Mathlib

/-
Verification of the typed-record persistence engine of
math_genealogy_explorer (src/collection/db.py, with the record types of
src/collection/schema.py).

The engine is reflection-driven Python: records are NamedTuple instances,
metadata (table name, primary key, foreign keys, alternate keys, insert
policy) lives in module-level dictionaries keyed by type, and the write
path DB.insert_or_update / read path DB.get interpret records against a
sqlite3 connection.  The shallow embedding below represents

  * a record value as a tree (`Value.vRec` for NamedTuple instances,
    scalar constructors for SQL scalars, `Value.vNull` for Python None);
  * the metadata dictionaries as a `Registry` of association lists keyed
    by type name;
  * the sqlite3 connection as a `Database`: association list of tables,
    each a list of rows; the statement actually issued is recorded in a
    log so that ordering claims are expressible;
  * functools.lru_cache on DB._contains as an explicit LRU list with the
    source's capacity of 1,000,000 entries;
  * Python exceptions (ValueError for the readonly guard,
    UnboundLocalError for the unassigned `update` local, TypeError for
    getattr(value, None), AttributeError for the `type._field_types`
    lookup, ...) as an error type threaded through `Except`.

Recursion in insert_or_update / get follows the nested-record structure;
the embedding makes the call stack explicit with a fuel parameter (Python
recursion is unbounded; fuel exhaustion is `PyError.recursionError` and is
never reached in any development below, every theorem runs at sufficient
fuel).
-/

/-- A Python value as seen by the engine: None, SQL scalars, date/datetime
objects (kept abstract as their ISO string), or a NamedTuple record
carrying its type name and its ordered field list (`_fields` zipped with
the component values). -/
inductive Value where
  | vNull : Value
  | vInt : Int → Value
  | vStr : String → Value
  | vDate : String → Value
  | vDatetime : String → Value
  | vRec : String → List (String × Value) → Value

mutual

/-- Boolean structural equality on values (Python ==). -/
def valueBeq : Value → Value → Bool
  | .vNull, .vNull => true
  | .vInt a, .vInt b => a == b
  | .vStr a, .vStr b => a == b
  | .vDate a, .vDate b => a == b
  | .vDatetime a, .vDatetime b => a == b
  | .vRec t f, .vRec t' f' => t == t' && fieldsBeq f f'
  | _, _ => false

/-- Boolean structural equality on field lists. -/
def fieldsBeq : List (String × Value) → List (String × Value) → Bool
  | [], [] => true
  | (n, v) :: r, (n', v') :: r' => n == n' && valueBeq v v' && fieldsBeq r r'
  | _, _ => false

end

mutual

/-- Correctness of valueBeq, giving decidable equality of values. -/
def valueBeq_iff : ∀ a b : Value, valueBeq a b = true ↔ a = b
  | .vNull, b => by cases b <;> simp [valueBeq]
  | .vInt a, .vNull => by simp [valueBeq]
  | .vInt a, .vInt b => by simp [valueBeq]
  | .vInt a, .vStr b => by simp [valueBeq]
  | .vInt a, .vDate b => by simp [valueBeq]
  | .vInt a, .vDatetime b => by simp [valueBeq]
  | .vInt a, .vRec t f => by simp [valueBeq]
  | .vStr a, .vNull => by simp [valueBeq]
  | .vStr a, .vInt b => by simp [valueBeq]
  | .vStr a, .vStr b => by simp [valueBeq]
  | .vStr a, .vDate b => by simp [valueBeq]
  | .vStr a, .vDatetime b => by simp [valueBeq]
  | .vStr a, .vRec t f => by simp [valueBeq]
  | .vDate a, .vNull => by simp [valueBeq]
  | .vDate a, .vInt b => by simp [valueBeq]
  | .vDate a, .vStr b => by simp [valueBeq]
  | .vDate a, .vDate b => by simp [valueBeq]
  | .vDate a, .vDatetime b => by simp [valueBeq]
  | .vDate a, .vRec t f => by simp [valueBeq]
  | .vDatetime a, .vNull => by simp [valueBeq]
  | .vDatetime a, .vInt b => by simp [valueBeq]
  | .vDatetime a, .vStr b => by simp [valueBeq]
  | .vDatetime a, .vDate b => by simp [valueBeq]
  | .vDatetime a, .vDatetime b => by simp [valueBeq]
  | .vDatetime a, .vRec t f => by simp [valueBeq]
  | .vRec t f, .vNull => by simp [valueBeq]
  | .vRec t f, .vInt b => by simp [valueBeq]
  | .vRec t f, .vStr b => by simp [valueBeq]
  | .vRec t f, .vDate b => by simp [valueBeq]
  | .vRec t f, .vDatetime b => by simp [valueBeq]
  | .vRec t f, .vRec t' f' => by
    simp only [valueBeq, Bool.and_eq_true]
    rw [fieldsBeq_iff f f']
    simp

/-- Correctness of fieldsBeq. -/
def fieldsBeq_iff : ∀ a b : List (String × Value), fieldsBeq a b = true ↔ a = b
  | [], [] => by simp [fieldsBeq]
  | [], (n', v') :: r' => by simp [fieldsBeq]
  | (n, v) :: r, [] => by simp [fieldsBeq]
  | (n, v) :: r, (n', v') :: r' => by
    simp only [fieldsBeq, Bool.and_eq_true]
    rw [valueBeq_iff v v', fieldsBeq_iff r r']
    simp_all

end

instance : DecidableEq Value := fun a b =>
  decidable_of_iff (valueBeq a b = true) (valueBeq_iff a b)

/-- Python isinstance(v, tuple): NamedTuple instances are tuples. -/
def isRecVal : Value → Bool
  | .vRec _ _ => true
  | _ => false

/-- Insert policies, enum.IntFlag in db.py: members are powers of two and a
policy may be a bitwise union of members. -/
abbrev InsertMode := Nat

def InsertMode.InsertIfNewPKElseUpdate : InsertMode := 1
def InsertMode.InsertIfNewAltPKElseUpdate : InsertMode := 2
def InsertMode.InsertIfNewPKElseIgnore : InsertMode := 4
def InsertMode.InsertIfNewAltPKElseIgnore : InsertMode := 8
def InsertMode.InsertIfNoPK : InsertMode := 16

/-- The module-level metadata dictionaries of db.py (INSERT_MODES,
PK_NAMES, FK_NAMES, ALT_PK_NAMES), keyed by record type name. -/
structure Registry where
  insertModes : List (String × InsertMode)
  pkNames : List (String × String)
  fkNames : List (String × List String)
  altPkNames : List (String × List String)
deriving DecidableEq

def emptyRegistry : Registry := ⟨[], [], [], []⟩

/-- register_insert_mode: the decorator stores the mode in INSERT_MODES. -/
def registerInsertMode (reg : Registry) (tn : String) (m : InsertMode) : Registry :=
  { reg with insertModes := (tn, m) :: reg.insertModes }

/-- Helper for _table_name: the regex findall of pattern [A-Z][a-z]+ over
the type name, each match lower-cased.  The scan keeps the word currently
being built (empty, or an upper-case character followed by the lower-case
run collected so far); a match requires at least one lower-case character
after the capital, so a pending single capital is dropped. -/
def camelWords : List Char → List Char → List String
  | [], w => if 2 ≤ w.length then [String.mk w] else []
  | c :: rest, w =>
    if c.isLower then
      if w.isEmpty then camelWords rest []
      else camelWords rest (w ++ [c])
    else
      (if 2 ≤ w.length then [String.mk w] else []) ++
        (if c.isUpper then camelWords rest [c.toLower] else camelWords rest [])

/-- _table_name: words of the CamelCase type name, lower-cased and joined
with underscores. -/
def tableName (tn : String) : String :=
  String.intercalate "_" (camelWords tn.data [])

/-- _primary_key_name: the explicitly registered name if present, else the
default `table name + "_id"` when that is one of the type's fields, else
None. -/
def primaryKeyName (reg : Registry) (tn : String) (fieldNames : List String) : Option String :=
  match reg.pkNames.lookup tn with
  | some pk => some pk
  | none =>
    let pkname := tableName tn ++ "_id"
    if fieldNames.contains pkname then some pkname else none

/-- List of Python exception kinds raised by the code paths modelled here. -/
inductive PyError where
  | valueError
  | typeError
  | attributeError
  | unboundLocal
  | keyError
  | operationalError
  | recursionError
deriving DecidableEq

/-- _foreign_key_names: the explicitly registered names if present.  The
default branch of the source reads `type._field_types` — the BUILTIN
`type`, a typo for the parameter `type_` — so whenever no explicit
registration exists the call raises AttributeError. -/
def foreignKeyNames (reg : Registry) (tn : String) : Except PyError (List String) :=
  match reg.fkNames.lookup tn with
  | some ns => .ok ns
  | none => .error .attributeError

/-- _insert_mode: the source fetches INSERT_MODES.get(type_); when the
lookup FAILS it computes the default union and returns it, but when the
lookup SUCCEEDS the function falls through without a return statement and
so returns None.  The translation mirrors that fall-through. -/
def insertModeOfType (reg : Registry) (tn : String) : Option InsertMode :=
  match reg.insertModes.lookup tn with
  | some _ => none
  | none =>
    some (InsertMode.InsertIfNewPKElseUpdate |||
      InsertMode.InsertIfNewAltPKElseUpdate ||| InsertMode.InsertIfNoPK)

/-- A stored relational row: the store-assigned rowid plus the column
values the issuing INSERT supplied (later UPDATEs overwrite them). -/
structure Row where
  rowid : Int
  cols : List (String × Value)
deriving DecidableEq

/-- Modelled from the spec: the relational store collaborator.  The schema
DDL script is not under src/ (§6 of the spec: "a relational store
connection supporting parameterized statement execution and returning an
assigned identity for inserts without an explicit key"), so the store is
modelled structurally: an association list of tables, plus the one DDL
fact the engine relies on, namely which column of each table is its
INTEGER PRIMARY KEY (in sqlite such a column aliases the rowid, which is
how a store-assigned identity becomes visible in the key column). -/
structure Database where
  pkCols : List (String × String)
  tables : List (String × List Row)
deriving DecidableEq

def rowsOf (db : Database) (t : String) : List Row :=
  (db.tables.lookup t).getD []

/-- Replace the binding of a key in an association list (append if absent). -/
def updateAssoc {α : Type} : List (String × α) → String → α → List (String × α)
  | [], k, v => [(k, v)]
  | (k', v') :: rest, k, v =>
    if k' == k then (k, v) :: rest else (k', v') :: updateAssoc rest k v

/-- Reading a column of a row: a column the INSERT supplied (or an UPDATE
set) has that value; the INTEGER PRIMARY KEY column aliases the rowid;
any other unsupplied column reads as SQL NULL. -/
def Row.getCol (r : Row) (pkCol? : Option String) (c : String) : Value :=
  match r.cols.lookup c with
  | some v => v
  | none => if pkCol? == some c then .vInt r.rowid else .vNull

/-- Store-assigned rowid for an insert that does not supply the key:
one more than the largest rowid in the table (sqlite's behaviour). -/
def nextRowid (rows : List Row) : Int :=
  (rows.foldl (fun m r => max m r.rowid) 0) + 1

/-- Execute INSERT INTO t(cols) VALUES (vals); returns the new database
and cursor.lastrowid.  When the supplied columns include the table's
INTEGER PRIMARY KEY with an integer value, that value becomes the rowid;
otherwise the store assigns the next free identity. -/
def dbInsert (db : Database) (t : String) (cols : List String) (vals : List Value) :
    Database × Int :=
  let rows := rowsOf db t
  let pkc? := db.pkCols.lookup t
  let rid :=
    match pkc? with
    | some pkc =>
      match (cols.zip vals).lookup pkc with
      | some (.vInt i) => i
      | _ => nextRowid rows
    | none => nextRowid rows
  (⟨db.pkCols, updateAssoc db.tables t (rows ++ [⟨rid, cols.zip vals⟩])⟩, rid)

/-- Execute UPDATE t SET cols = vals WHERE whereCol = whereVal. -/
def dbUpdate (db : Database) (t : String) (cols : List String) (vals : List Value)
    (whereCol : String) (whereVal : Value) : Database :=
  let pkc? := db.pkCols.lookup t
  ⟨db.pkCols,
    updateAssoc db.tables t ((rowsOf db t).map (fun r =>
      if r.getCol pkc? whereCol == whereVal then
        ⟨r.rowid, (cols.zip vals).foldl (fun cs p => updateAssoc cs p.1 p.2) r.cols⟩
      else r))⟩

/-- Cache key of DB._contains: (tablename, pkname, pkvalue). -/
abbrev CKey := String × String × Value

/-- The functools.lru_cache memoization table on DB._contains: entries
most-recently-used first, capacity CACHE_CAPACITY. -/
structure Cache where
  entries : List (CKey × Bool)
deriving DecidableEq

def emptyCache : Cache := ⟨[]⟩

/-- Capacity of the lru_cache on DB._contains (lru_cache(1_000_000)). -/
def CACHE_CAPACITY : Nat := 1000000

/-- The underlying query of DB._contains: SELECT pk FROM t WHERE pk = v
fetches a row or not. -/
def containsUncached (db : Database) (t pk : String) (v : Value) : Bool :=
  (rowsOf db t).any (fun r => r.getCol (db.pkCols.lookup t) pk == v)

/-- DB._contains as wrapped by lru_cache: a hit returns the memoized
result and moves the entry to most-recently-used; a miss runs the query,
inserts the result at the front and evicts the least-recently-used entry
when the capacity is exceeded. -/
def cachedContains (db : Database) (c : Cache) (t pk : String) (v : Value) :
    Bool × Cache :=
  let k : CKey := (t, pk, v)
  match c.entries.find? (fun e => e.1 == k) with
  | some e => (e.2, ⟨(k, e.2) :: c.entries.filter (fun e => !(e.1 == k))⟩)
  | none =>
    let b := containsUncached db t pk v
    (b, ⟨((k, b) :: c.entries).take CACHE_CAPACITY⟩)

/-- Look up a key's memoized value without touching the cache. -/
def cacheGet (c : Cache) (k : CKey) : Option Bool :=
  (c.entries.find? (fun e => e.1 == k)).map (·.2)

/-- One SQL statement issued by the engine, recorded structurally (the
source builds these as strings and hands them to conn.execute). -/
inductive Stmt where
  | insertStmt (table : String) (cols : List String) (vals : List Value)
  | updateStmt (table : String) (cols : List String) (vals : List Value)
      (whereCol : String) (whereVal : Value)
deriving DecidableEq

/-- State threaded through a DB instance: the connection's database, the
_contains memoization table, and the log of statements issued so far. -/
structure EngineState where
  db : Database
  cache : Cache
  log : List Stmt
deriving DecidableEq

/-- The loop `for subvalue in insert_dependencies: ... self.insert_or_update(...)`
of DB.insert_or_update: persist each nested record in field order,
collecting the returned keys; an exception aborts the loop. -/
def persistDeps (persistOne : Value → EngineState → Except PyError Value × EngineState) :
    List Value → EngineState → Except PyError (List Value) × EngineState
  | [], st => (.ok [], st)
  | v :: rest, st =>
    match persistOne v st with
    | (.error e, st') => (.error e, st')
    | (.ok pk, st') =>
      match persistDeps persistOne rest st' with
      | (.error e, st'') => (.error e, st'')
      | (.ok pks, st'') => (.ok (pk :: pks), st'')

/-- DB.insert_or_update.  Mirrors the source line by line:
readonly guard; partition of the fields into the primary-key field
(skipped), scalar columns and nested-record dependencies; read of the
primary-key attribute (getattr(value, None) raises TypeError when the
type has no primary key field); the `update` flag, which the source
leaves UNASSIGNED when the primary-key value is None (reading it then
raises UnboundLocalError); recursive persistence of the dependencies;
then one UPDATE or INSERT statement.  The insert-policy registry is never
consulted.  `check` is check_if_pk_not_null (default True). -/
def insertOrUpdate (reg : Registry) (ro : Bool) (check : Bool) :
    Nat → Value → EngineState → Except PyError Value × EngineState
  | 0, _, st => (.error .recursionError, st)
  | fuel + 1, value, st =>
    if ro then (.error .valueError, st)
    else
      match value with
      | .vRec tn fields =>
        let tablename := tableName tn
        let pkname? := primaryKeyName reg tn (fields.map (·.1))
        let insertCols := (fields.filter (fun f => !(pkname? == some f.1) && !(isRecVal f.2))).map (·.1)
        let insertVals := (fields.filter (fun f => !(pkname? == some f.1) && !(isRecVal f.2))).map (·.2)
        let depCols := (fields.filter (fun f => !(pkname? == some f.1) && isRecVal f.2)).map (·.1)
        let deps := (fields.filter (fun f => !(pkname? == some f.1) && isRecVal f.2)).map (·.2)
        match pkname? with
        | none => (.error .typeError, st)
        | some pkname =>
          match fields.lookup pkname with
          | none => (.error .attributeError, st)
          | some pkvalue =>
            let checkRes : Option Bool × List String × List Value × EngineState :=
              if !(pkvalue == .vNull) && check then
                let bc := cachedContains st.db st.cache tablename pkname pkvalue
                (some bc.1, insertCols, insertVals, ⟨st.db, bc.2, st.log⟩)
              else if !(pkvalue == .vNull) then
                (some false, insertCols ++ [pkname], insertVals ++ [pkvalue], st)
              else
                (none, insertCols, insertVals, st)
            match checkRes with
            | (update?, cols0, vals0, st1) =>
              match persistDeps (insertOrUpdate reg ro check fuel) deps st1 with
              | (.error e, st2) => (.error e, st2)
              | (.ok depPks, st2) =>
                let cols := cols0 ++ depCols.map (fun c => c ++ "_id")
                let vals := vals0 ++ depPks
                match update? with
                | none => (.error .unboundLocal, st2)
                | some true =>
                  let db2 := dbUpdate st2.db tablename cols vals pkname pkvalue
                  (.ok pkvalue, ⟨db2, st2.cache,
                    st2.log ++ [.updateStmt tablename cols vals pkname pkvalue]⟩)
                | some false =>
                  let ins := dbInsert st2.db tablename cols vals
                  (.ok (.vInt ins.2), ⟨ins.1, st2.cache,
                    st2.log ++ [.insertStmt tablename cols vals]⟩)
      | _ => (.error .attributeError, st)

/-- Declared type of a NamedTuple field, as consulted by DB.get and the
value converter (type_._field_types): an SQL scalar type, datetime.date /
datetime.datetime, or another record type (by name). -/
inductive FieldTy where
  | intTy
  | strTy
  | dateTy
  | datetimeTy
  | recTy (name : String)
deriving DecidableEq

/-- The reflection environment: _fields and _field_types of every record
type, in declaration order. -/
abbrev TypeEnv := List (String × List (String × FieldTy))

/-- convert_sql_result_value: pass-through when the value already is an
instance of the target type; else dispatch on the target type into
SQL_CONVERTERS, which holds ISO parsers for datetime.date and
datetime.datetime only (parsing a non-string raises TypeError; the
abstraction keeps the parsed object as its ISO string); any other target
type has no converter and the raw value is returned unchanged. -/
def convertSqlResultValue (v : Value) (t : FieldTy) : Except PyError Value :=
  match t with
  | .dateTy =>
    match v with
    | .vDate s => .ok (.vDate s)
    | .vStr s => .ok (.vDate s)
    | _ => .error .typeError
  | .datetimeTy =>
    match v with
    | .vDatetime s => .ok (.vDatetime s)
    | .vStr s => .ok (.vDatetime s)
    | _ => .error .typeError
  | _ => .ok v

/-- Execute SELECT fields FROM t WHERE pkname = v, fetchone. -/
def dbSelectRow (db : Database) (t pkname : String) (v : Value) : Option Row :=
  (rowsOf db t).find? (fun r => r.getCol (db.pkCols.lookup t) pkname == v)

/-- The kwargs-building loop of DB.get over the cursor description (the
selected columns are exactly the type's declared fields): a column listed
in the foreign-key names is resolved by a recursive get on the referenced
type (strip a trailing "_id" to recover the field name, then read its
declared type; a missing field raises KeyError, a non-record declared
type makes the recursive get fail on _fields); any other column goes
through the value converter. -/
def getFields (getRec : String → Value → Except PyError (Option Value))
    (decls : List (String × FieldTy)) (fknames : List String)
    (pkc? : Option String) (row : Row) :
    List (String × FieldTy) → Except PyError (List (String × Value))
  | [] => .ok []
  | (n, ty) :: rest =>
    let val := row.getCol pkc? n
    let kv : Except PyError Value :=
      if fknames.contains n then
        let fieldname := if n.endsWith "_id" then n.dropRight 3 else n
        match decls.lookup fieldname with
        | none => .error .keyError
        | some fty =>
          match fty with
          | .recTy rtn =>
            match getRec rtn val with
            | .error e => .error e
            | .ok (some r) => .ok r
            | .ok none => .ok .vNull
          | _ => .error .attributeError
      else convertSqlResultValue val ty
    match kv with
    | .error e => .error e
    | .ok v =>
      match getFields getRec decls fknames pkc? row rest with
      | .error e => .error e
      | .ok others => .ok ((n, v) :: others)

/-- DB.get.  The source builds the statement as
"SELECT (%s) FROM %s WHERE %s = ?" — the result-column list is wrapped in
parentheses, so sqlite parses it as a row value and conn.execute raises
sqlite3.OperationalError "row value misused" whenever the type declares
more than one field (a one-element parenthesized list is an ordinary
parenthesized expression; the empty list is likewise a parse error).
That execute failure happens before fetchone, so before the not-found
path and before _foreign_key_names.  Only for a single-field type does
the call proceed: no row is an ordinary None result, not an error; on a
hit the foreign-key names are computed — which, for any type without an
explicit FK registration, raises AttributeError through the
`type._field_types` typo in _foreign_key_names — then the field values
are built and the record is constructed. -/
def getRecord (env : TypeEnv) (reg : Registry) (db : Database) :
    Nat → String → Value → Except PyError (Option Value)
  | 0, _, _ => .error .recursionError
  | fuel + 1, tn, pkvalue =>
    match env.lookup tn with
    | none => .error .attributeError
    | some decls =>
      let tablename := tableName tn
      match primaryKeyName reg tn (decls.map (·.1)) with
      | none => .error .operationalError
      | some pkname =>
        if decls.length ≠ 1 then .error .operationalError
        else
          match dbSelectRow db tablename pkname pkvalue with
          | none => .ok none
          | some row =>
            match foreignKeyNames reg tn with
            | .error e => .error e
            | .ok fknames =>
              match getFields (getRecord env reg db fuel) decls fknames
                  (db.pkCols.lookup tablename) row decls with
              | .error e => .error e
              | .ok fs => .ok (some (.vRec tn fs))

/-- The registrations performed at import time by schema.py: every record
type's insert mode, the explicit primary key of
MathematicsSubjectClassification, and the alternate keys (a reference
field in an alternate key is registered as its `_id` column).  FK_NAMES
is never populated anywhere in the repository. -/
def schemaRegistry : Registry :=
  { ([("Country", InsertMode.InsertIfNewAltPKElseIgnore),
      ("University", InsertMode.InsertIfNewAltPKElseIgnore),
      ("MathematicsSubjectClassification", InsertMode.InsertIfNewPKElseIgnore),
      ("Dissertation", InsertMode.InsertIfNoPK),
      ("Mathematician", InsertMode.InsertIfNewPKElseIgnore),
      ("AdvisorRelationship", InsertMode.InsertIfNewAltPKElseIgnore),
      ("WebSource", InsertMode.InsertIfNewAltPKElseIgnore),
      ("Webpage", InsertMode.InsertIfNewAltPKElseUpdate),
      ("MathGenealogyAssociatedLink", InsertMode.InsertIfNewAltPKElseUpdate)].foldl
      (fun r p => registerInsertMode r p.1 p.2) emptyRegistry) with
    pkNames := [("MathematicsSubjectClassification", "subject_code")]
    altPkNames := [("Country", ["country_name"]),
      ("University", ["university_name", "country_id"]),
      ("MathematicsSubjectClassification", ["subject_name"]),
      ("AdvisorRelationship", ["advisor_id", "advisee_id"]),
      ("WebSource", ["base_url"]),
      ("Webpage", ["web_source_id", "path", "query"]),
      ("MathGenealogyAssociatedLink", ["mathematician_id", "webpage_id", "href_text"])] }

/-- The _fields / _field_types declarations of schema.py. -/
def schemaTypeEnv : TypeEnv :=
  [("Country", [("country_id", .intTy), ("country_name", .strTy)]),
   ("University", [("university_id", .intTy), ("university_name", .strTy),
     ("country", .recTy "Country")]),
   ("MathematicsSubjectClassification",
     [("subject_code", .intTy), ("subject_name", .strTy)]),
   ("Dissertation", [("dissertation_id", .intTy), ("dissertation_title", .strTy),
     ("dissertation_year", .intTy), ("subject", .recTy "MathematicsSubjectClassification"),
     ("university", .recTy "University")]),
   ("Mathematician", [("mathematician_id", .intTy), ("mathematician_name", .strTy),
     ("birth_date", .dateTy), ("death_date", .dateTy),
     ("dissertation", .recTy "Dissertation")]),
   ("AdvisorRelationship", [("advisor", .recTy "Mathematician"),
     ("advisee", .recTy "Mathematician"), ("university", .recTy "University")]),
   ("WebSource", [("web_source_id", .intTy), ("base_url", .strTy)]),
   ("Webpage", [("webpage_id", .intTy), ("web_source", .recTy "WebSource"),
     ("path", .strTy), ("query", .strTy), ("timestamp", .datetimeTy)]),
   ("MathGenealogyAssociatedLink", [("mathematician", .recTy "Mathematician"),
     ("webpage", .recTy "Webpage"), ("href_text", .strTy)])]

/-- A Country record instance with the given primary-key value. -/
def countryRec (pk : Value) (name : String) : Value :=
  .vRec "Country" [("country_id", pk), ("country_name", .vStr name)]

/-- Database whose DDL declares country_id as the INTEGER PRIMARY KEY of
the country table, with no rows yet. -/
def emptyCountryDb : Database := ⟨[("country", "country_id")], []⟩

/-- Fresh engine state on an empty country database. -/
def freshCountryState : EngineState := ⟨emptyCountryDb, emptyCache, []⟩

/-- Database already holding the row (country_id 1, country_name France),
as left by a previous run. -/
def franceDb : Database :=
  ⟨[("country", "country_id")],
   [("country", [⟨1, [("country_id", .vInt 1), ("country_name", .vStr "France")]⟩])]⟩

/-- First persist of Country(country_id 5, France) on a fresh state. -/
def persistFrance1 : Except PyError Value × EngineState :=
  insertOrUpdate schemaRegistry false true 2 (countryRec (.vInt 5) "France") freshCountryState

/-- Second persist of the identical record on the resulting state. -/
def persistFrance2 : Except PyError Value × EngineState :=
  insertOrUpdate schemaRegistry false true 2 (countryRec (.vInt 5) "France") persistFrance1.2

/-- An AdvisorRelationship instance (a type with no primary-key field:
no registration and no advisor_relationship_id field). -/
def advisorRelRec : Value :=
  .vRec "AdvisorRelationship"
    [("advisor", .vRec "Mathematician" [("mathematician_id", .vInt 1),
       ("mathematician_name", .vStr "Karl Weierstrass"), ("birth_date", .vNull),
       ("death_date", .vNull), ("dissertation", .vNull)]),
     ("advisee", .vRec "Mathematician" [("mathematician_id", .vInt 2),
       ("mathematician_name", .vStr "Sofia Kovalevskaya"), ("birth_date", .vNull),
       ("death_date", .vNull), ("dissertation", .vNull)]),
     ("university", .vNull)]

/-- A Webpage record whose nested WebSource has no primary-key value yet,
exactly as parse_mathematicican constructs them. -/
def webpageNullSrcRec : Value :=
  .vRec "Webpage"
    [("webpage_id", .vInt 77),
     ("web_source", .vRec "WebSource" [("web_source_id", .vNull),
       ("base_url", .vStr "genealogy.math.ndsu.nodak.edu")]),
     ("path", .vStr "/id.php"), ("query", .vStr "?id=1"), ("timestamp", .vNull)]

/-- Empty database for the webpage / web_source tables. -/
def webDb : Database :=
  ⟨[("webpage", "webpage_id"), ("web_source", "web_source_id")], []⟩

/-- One _contains call as a cache transition: the database argument is the
store state at call time (it may change between calls, e.g. by an
out-of-band delete). -/
def cacheStep (c : Cache) (e : Database × CKey) : Cache :=
  (cachedContains e.1 c e.2.1 e.2.2.1 e.2.2.2).2

/-- Cache contents after a sequence of _contains calls in one process
(the process starts with an empty memoization table). -/
def cacheAfter (events : List (Database × CKey)) : Cache :=
  events.foldl cacheStep emptyCache

/-- Positional element access on lists (structural, so that it evaluates
lazily on the trace below). -/
def listNth {α : Type} : List α → Nat → Option α
  | [], _ => none
  | a :: _, 0 => some a
  | _ :: l, n + 1 => listNth l n

/-- The boolean answer of the i-th _contains call of the sequence. -/
def queryResultAt (events : List (Database × CKey)) (i : Nat) : Option Bool :=
  (listNth events i).map (fun e =>
    (cachedContains e.1 (cacheAfter (events.take i)) e.2.1 e.2.2.1 e.2.2.2).1)

/-- Database holding one row of table t with key column tid = 1. -/
def tRowDb : Database := ⟨[("t", "tid")], [("t", [⟨1, []⟩])]⟩

/-- The same table after the row is removed out-of-band. -/
def tEmptyDb : Database := ⟨[("t", "tid")], [("t", [])]⟩

/-- The _contains key of the row above. -/
def tKey : CKey := ("t", "tid", .vInt 1)

/-- CACHE_CAPACITY distinct _contains calls on other keys: enough traffic
to evict the least-recently-used entry. -/
def junkEvents : List (Database × CKey) :=
  (List.range CACHE_CAPACITY).map (fun n => (tEmptyDb, ("junk", "c", .vInt (Int.ofNat n))))

/-- A trace that observes the row, suffers the out-of-band delete, queries
a cache-capacity's worth of fresh keys, then asks about the row again. -/
def evictionTrace : List (Database × CKey) :=
  (tRowDb, tKey) :: (junkEvents ++ [(tEmptyDb, tKey)])

/-- All field values of the list are scalars (no nested record). -/
abbrev scalarFields (l : List (String × Value)) : Prop :=
  ∀ p ∈ l, isRecVal p.2 = false

/-- Claim C8 as stated: within one process, once a _contains query of a
key answers true, every later query of the same key answers true, even if
the underlying row was removed out-of-band in between. -/
def c8ClaimStatement : Prop :=
  ∀ (events : List (Database × CKey)) (i j : Nat) (db₁ db₂ : Database) (k : CKey),
    i < j → listNth events i = some (db₁, k) → listNth events j = some (db₂, k) →
    queryResultAt events i = some true → queryResultAt events j = some true

/-- Invariant of the _contains cache: entry keys are distinct and drawn
from a given key set. -/
def CacheInv (c : Cache) (B : Finset CKey) : Prop :=
  (c.entries.map (·.1)).Nodup ∧ ∀ x ∈ c.entries.map (·.1), x ∈ B

/-- A two-event trace: observe the row, then query it again after it was
removed out-of-band. -/
def twoEventTrace : List (Database × CKey) := [(tRowDb, tKey), (tEmptyDb, tKey)]

/-- Field prefix of a concrete Webpage record: its primary key. -/
def wpPre : List (String × Value) := [("webpage_id", .vInt 3)]

/-- Field suffix of the concrete Webpage record: its scalar columns. -/
def wpPost : List (String × Value) :=
  [("path", .vStr "/id.php"), ("query", .vStr "?id=1"), ("timestamp", .vNull)]

/-- Fields of the concrete nested WebSource record. -/
def wsFields : List (String × Value) :=
  [("web_source_id", .vInt 4), ("base_url", .vStr "genealogy.math.ndsu.nodak.edu")]

/- ------------------------------------------------------------------ -/
/- Theorems.                                                           -/
/- ------------------------------------------------------------------ -/

/-- C10: persisting through a read-only engine instance raises ValueError
unconditionally — for every registry, record, check flag and state — and
returns with the state untouched: no SQL statement is logged, no nested
record is persisted, database and cache are unchanged. -/
theorem c10_readonly_rejected (reg : Registry) (check : Bool) (fuel : Nat)
    (v : Value) (st : EngineState) :
    insertOrUpdate reg true check (fuel + 1) v st = (.error .valueError, st) := rfl

/-- C1: the write path never consults the insert-policy registry.  Country
has registered policy insert-if-new-alternate-key-else-ignore and the
database already holds a row whose alternate key country_name matches
(France, key 1); the claim requires no write and the existing key 1.
Instead the code checks only the primary key (7, absent), issues an
INSERT, creating a duplicate France row, and returns the fresh key 2 —
and the result is identical whatever INSERT_MODES holds. -/
theorem c1_policy_ignored :
    (insertOrUpdate schemaRegistry false true 2 (countryRec (.vInt 7) "France")
        ⟨franceDb, emptyCache, []⟩).1 = .ok (.vInt 2) ∧
    rowsOf (insertOrUpdate schemaRegistry false true 2 (countryRec (.vInt 7) "France")
        ⟨franceDb, emptyCache, []⟩).2.db "country" =
      [⟨1, [("country_id", .vInt 1), ("country_name", .vStr "France")]⟩,
       ⟨2, [("country_name", .vStr "France")]⟩] ∧
    ∀ ms : List (String × InsertMode),
      insertOrUpdate { schemaRegistry with insertModes := ms } false true 2
          (countryRec (.vInt 7) "France") ⟨franceDb, emptyCache, []⟩ =
        insertOrUpdate schemaRegistry false true 2 (countryRec (.vInt 7) "France")
          ⟨franceDb, emptyCache, []⟩ :=
  ⟨rfl, rfl, fun _ => rfl⟩

/-- C2: persisting Country(country_id 5, France) twice on a fresh state is
not idempotent.  The first call's INSERT omits the known primary-key
value, so the store assigns key 1; the second call reads the memoized
pre-insert existence result (false) and inserts again, returning key 2
and leaving two duplicate rows — not the same key twice and one row. -/
theorem c2_double_persist_duplicates :
    persistFrance1.1 = .ok (.vInt 1) ∧
    persistFrance2.1 = .ok (.vInt 2) ∧
    rowsOf persistFrance2.2.db "country" =
      [⟨1, [("country_name", .vStr "France")]⟩, ⟨2, [("country_name", .vStr "France")]⟩] :=
  ⟨rfl, rfl, rfl⟩

/-- C3: a record whose primary-key field holds None does not insert with
the key column omitted; the local `update` is only ever assigned when the
primary-key value is non-null, so the call raises UnboundLocalError and
leaves database, cache and statement log exactly as they were. -/
theorem c3_null_pk_raises (st : EngineState) :
    insertOrUpdate schemaRegistry false true 2 (countryRec .vNull "France") st =
      (.error .unboundLocal, st) := rfl

/-- C4: a record type with no primary-key field (AdvisorRelationship) does
not insert unconditionally under insert-if-no-primary-key; _primary_key_name
returns None and getattr(value, None) raises TypeError before any
statement — so two identical records produce two errors, not two rows. -/
theorem c4_no_pk_type_error (st : EngineState) (fuel : Nat) :
    insertOrUpdate schemaRegistry false true (fuel + 1) advisorRelRec st =
      (.error .typeError, st) := rfl

/-- C5: the insert-policy lookup does return the default union for an
unregistered type, but for every explicitly registered type the found
branch of _insert_mode falls through without a return statement and the
lookup yields None — not the registered policy. -/
theorem c5_insert_mode_lookup :
    (∀ (reg : Registry) (tn : String) (m : InsertMode),
      insertModeOfType (registerInsertMode reg tn m) tn = none) ∧
    insertModeOfType emptyRegistry "Country" =
      some (InsertMode.InsertIfNewPKElseUpdate ||| InsertMode.InsertIfNewAltPKElseUpdate |||
        InsertMode.InsertIfNoPK) :=
  ⟨fun reg tn m => by simp [insertModeOfType, registerInsertMode, List.lookup], rfl⟩

/-- C6: the round trip get(type(R), persist(R)) does not return R.  After
persisting Country(country_id 5, France) (stored under store-assigned key
1), get builds SELECT with its column list wrapped in parentheses —
"SELECT (country_id, country_name) FROM country ..." — which sqlite
rejects at execute with OperationalError "row value misused" for every
type with more than one field, i.e. for every type in the repository.
The failure precedes fetchone, so get errors whether or not the row
exists (third conjunct: same error on an empty table), and never reaches
record construction. -/
theorem c6_get_round_trip_fails :
    persistFrance1.1 = .ok (.vInt 1) ∧
    getRecord schemaTypeEnv schemaRegistry persistFrance1.2.db 2 "Country" (.vInt 1) =
      .error .operationalError ∧
    getRecord schemaTypeEnv schemaRegistry emptyCountryDb 2 "Country" (.vInt 999) =
      .error .operationalError :=
  ⟨rfl, rfl, rfl⟩

/-- C7: a persist that inserts does not mark its key as existing in the
cache.  After the first insert of Country(country_id 5, France) the cache
holds the triple (country, country_id, 5) with the PRE-insert answer
false; the second persist of the same key is answered from the cache
(cache unchanged, so no new database query entry) and therefore issues a
second INSERT instead of taking the update/ignore branch. -/
theorem c7_cache_not_populated :
    persistFrance1.2.log = [.insertStmt "country" ["country_name"] [.vStr "France"]] ∧
    cacheGet persistFrance1.2.cache ("country", "country_id", .vInt 5) = some false ∧
    persistFrance2.2.cache = persistFrance1.2.cache ∧
    persistFrance2.2.log = persistFrance1.2.log ++
      [.insertStmt "country" ["country_name"] [.vStr "France"]] :=
  ⟨rfl, rfl, rfl, rfl⟩

/-- C9 counterexample: a record R (Webpage, primary key 77) holding an
unpersisted nested record N (WebSource with primary key None).  The claim
says persist(R) leaves both rows in the store with R's foreign-key column
set; instead the recursive persist of N raises UnboundLocalError (N's
primary key is None), no statement is ever issued, and neither row
exists afterwards. -/
theorem c9_null_pk_dependency_counterexample :
    (insertOrUpdate schemaRegistry false true 3 webpageNullSrcRec
        ⟨webDb, emptyCache, []⟩).1 = .error .unboundLocal ∧
    rowsOf (insertOrUpdate schemaRegistry false true 3 webpageNullSrcRec
        ⟨webDb, emptyCache, []⟩).2.db "web_source" = [] ∧
    rowsOf (insertOrUpdate schemaRegistry false true 3 webpageNullSrcRec
        ⟨webDb, emptyCache, []⟩).2.db "webpage" = [] ∧
    (insertOrUpdate schemaRegistry false true 3 webpageNullSrcRec
        ⟨webDb, emptyCache, []⟩).2.log = [] :=
  ⟨rfl, rfl, rfl, rfl⟩

/-- Truncating an already-truncated tail again is the same single
truncation. -/
theorem takeFuse {α : Type} (a b : List α) (n : Nat) :
    (a ++ b.take n).take n = (a ++ b).take n := by
  rw [List.take_append_eq_append_take, List.take_append_eq_append_take, List.take_take,
    min_eq_left (Nat.sub_le n a.length)]

/-- A _contains call on an uncached key runs the query and pushes the
result, evicting past the capacity. -/
theorem cacheStep_miss (c : Cache) (e : Database × CKey)
    (h : c.entries.find? (fun q => q.1 == e.2) = none) :
    cacheStep c e =
      ⟨((e.2, containsUncached e.1 e.2.1 e.2.2.1 e.2.2.2) :: c.entries).take CACHE_CAPACITY⟩ := by
  simp only [cacheStep, cachedContains, Prod.mk.eta]
  rw [h]

/-- A _contains call on a cached key moves the entry to the front,
keeping its memoized value. -/
theorem cacheStep_hit (c : Cache) (e : Database × CKey) (p : CKey × Bool)
    (h : c.entries.find? (fun q => q.1 == e.2) = some p) :
    cacheStep c e = ⟨(e.2, p.2) :: c.entries.filter (fun q => !(q.1 == e.2))⟩ := by
  simp only [cacheStep, cachedContains, Prod.mk.eta]
  rw [h]

/-- The boolean a _contains call answers on an uncached key. -/
theorem cachedContains_fst_miss (db : Database) (c : Cache) (k : CKey)
    (h : c.entries.find? (fun q => q.1 == k) = none) :
    (cachedContains db c k.1 k.2.1 k.2.2).1 = containsUncached db k.1 k.2.1 k.2.2 := by
  simp only [cachedContains, Prod.mk.eta]
  rw [h]

/-- The boolean a _contains call answers on a cached key. -/
theorem cachedContains_fst_hit (db : Database) (c : Cache) (k : CKey) (p : CKey × Bool)
    (h : c.entries.find? (fun q => q.1 == k) = some p) :
    (cachedContains db c k.1 k.2.1 k.2.2).1 = p.2 := by
  simp only [cachedContains, Prod.mk.eta]
  rw [h]

/-- Running a block of queries whose keys are fresh (distinct from each
other and from everything cached) leaves exactly the new entries, newest
first, on top of the old ones, truncated at the capacity. -/
theorem foldl_cacheStep_fresh :
    ∀ (l : List (Database × CKey)) (c : Cache),
      (l.map (fun e => e.2)).Nodup →
      (∀ e ∈ l, ∀ p ∈ c.entries, p.1 ≠ e.2) →
      c.entries.length ≤ CACHE_CAPACITY →
      (l.foldl cacheStep c).entries =
        ((l.map (fun e => (e.2, containsUncached e.1 e.2.1 e.2.2.1 e.2.2.2))).reverse
          ++ c.entries).take CACHE_CAPACITY
  | [], c, _, _, hlen => by
    simp [List.take_of_length_le hlen]
  | e :: l, c, hnd, hfresh, hlen => by
    have hmiss : c.entries.find? (fun q => q.1 == e.2) = none := by
      rw [List.find?_eq_none]
      intro p hp
      simpa using hfresh e (by simp) p hp
    rw [List.foldl_cons, cacheStep_miss c e hmiss]
    have hnd' : (l.map (fun e => e.2)).Nodup := (List.map_cons _ e l ▸ hnd).of_cons
    have hnotin : e.2 ∉ l.map (fun e => e.2) := by
      have := List.map_cons (fun e : Database × CKey => e.2) e l ▸ hnd
      exact (List.nodup_cons.mp this).1
    have hfresh' : ∀ e' ∈ l, ∀ p ∈
        (((e.2, containsUncached e.1 e.2.1 e.2.2.1 e.2.2.2) :: c.entries).take
          CACHE_CAPACITY), p.1 ≠ e'.2 := by
      intro e' he' p hp
      have hp' := List.take_subset _ _ hp
      rcases List.mem_cons.mp hp' with h1 | h2
      · subst h1
        intro hcontra
        have heq : e.2 = e'.2 := hcontra
        exact hnotin (heq ▸ List.mem_map_of_mem (fun e : Database × CKey => e.2) he')
      · exact hfresh e' (List.mem_cons_of_mem _ he') p h2
    have hlen' : ((((e.2, containsUncached e.1 e.2.1 e.2.2.1 e.2.2.2) :: c.entries).take
        CACHE_CAPACITY)).length ≤ CACHE_CAPACITY := List.length_take_le _ _
    rw [foldl_cacheStep_fresh l
      ⟨((e.2, containsUncached e.1 e.2.1 e.2.2.1 e.2.2.2) :: c.entries).take CACHE_CAPACITY⟩
      hnd' hfresh' hlen']
    rw [takeFuse]
    simp [List.append_assoc]

/-- Positional access agrees with list indexing. -/
theorem listNth_eq_getElem? {α : Type} : ∀ (l : List α) (n : Nat), listNth l n = l[n]?
  | [], n => by cases n <;> rfl
  | a :: t, 0 => by simp [listNth]
  | a :: t, n + 1 => by
    rw [listNth, List.getElem?_cons_succ]
    exact listNth_eq_getElem? t n

/-- The i-th query's answer, spelled through cachedContains. -/
theorem queryResultAt_eq (events : List (Database × CKey)) (i : Nat) (db : Database) (k : CKey)
    (h : listNth events i = some (db, k)) :
    queryResultAt events i =
      some ((cachedContains db (cacheAfter (events.take i)) k.1 k.2.1 k.2.2).1) := by
  simp only [queryResultAt, h, Option.map_some']

/-- There are exactly CACHE_CAPACITY junk queries. -/
theorem junk_len : junkEvents.length = CACHE_CAPACITY := by
  rw [junkEvents, List.length_map, List.length_range]

/-- Entries of a cache with distinct keys are determined by their key. -/
theorem entry_unique {l : List (CKey × Bool)} (hnd : (l.map (·.1)).Nodup)
    {p q : CKey × Bool} (hp : p ∈ l) (hq : q ∈ l) (hk : p.1 = q.1) : p = q := by
  induction l with
  | nil => cases hp
  | cons a t ih =>
    rw [List.map_cons, List.nodup_cons] at hnd
    rcases List.mem_cons.mp hp with h1 | h1 <;> rcases List.mem_cons.mp hq with h2 | h2
    · rw [h1, h2]
    · exact absurd (by rw [← h1, hk]; exact List.mem_map_of_mem (fun q : CKey × Bool => q.1) h2)
        hnd.1
    · exact absurd (by rw [← h2, ← hk]; exact List.mem_map_of_mem (fun q : CKey × Bool => q.1) h1)
        hnd.1
    · exact ih hnd.2 h1 h2

/-- A lookup in a cache with distinct keys finds the member entry. -/
theorem find_entry_of_mem_nodup {l : List (CKey × Bool)} {k : CKey} {b : Bool}
    (hnd : (l.map (·.1)).Nodup) (hmem : (k, b) ∈ l) :
    l.find? (fun q => q.1 == k) = some (k, b) := by
  induction l with
  | nil => cases hmem
  | cons p t ih =>
    rw [List.map_cons, List.nodup_cons] at hnd
    rcases List.mem_cons.mp hmem with h1 | h2
    · rw [← h1]
      exact List.find?_cons_of_pos _ (by simp)
    · have hk : k ∈ t.map (fun q : CKey × Bool => q.1) :=
        List.mem_map_of_mem (fun q : CKey × Bool => q.1) h2
      have hne : ¬(p.1 == k) = true := by
        intro hbeq
        have hpk : p.1 = k := by simpa using hbeq
        exact hnd.1 (hpk ▸ hk)
      have hstep : List.find? (fun q => (q.1 == k : Bool)) (p :: t) =
          List.find? (fun q => (q.1 == k : Bool)) t := List.find?_cons_of_neg _ hne
      rw [hstep]
      exact ih hnd.2 h2

/-- One _contains call keeps the cache keys distinct and inside the set of
keys ever queried, and — as long as that set fits the capacity — never
drops an entry. -/
theorem cacheStep_inv_mono (B : Finset CKey) (c : Cache) (e : Database × CKey)
    (hInv : CacheInv c B) (he : e.2 ∈ B) (hcard : B.card ≤ CACHE_CAPACITY) :
    CacheInv (cacheStep c e) B ∧ ∀ q ∈ c.entries, q ∈ (cacheStep c e).entries := by
  obtain ⟨hnd, hsub⟩ := hInv
  cases hfind : c.entries.find? (fun q => q.1 == e.2) with
  | some p =>
    rw [cacheStep_hit c e p hfind]
    have hp : p ∈ c.entries := List.mem_of_find?_eq_some hfind
    have hpk : p.1 = e.2 := by simpa using List.find?_some hfind
    refine ⟨⟨?_, ?_⟩, ?_⟩
    · rw [List.map_cons, List.nodup_cons]
      constructor
      · intro hmem
        obtain ⟨q, hq, hq2⟩ := List.mem_map.mp hmem
        have hqp := (List.mem_filter.mp hq).2
        rw [hq2] at hqp
        simp at hqp
      · exact List.Nodup.sublist ((List.filter_sublist _).map _) hnd
    · intro x hx
      rw [List.map_cons] at hx
      rcases List.mem_cons.mp hx with h1 | h1
      · rw [h1]; exact he
      · obtain ⟨q, hq, hq2⟩ := List.mem_map.mp h1
        exact hsub x (hq2 ▸ List.mem_map_of_mem _ (List.mem_of_mem_filter hq))
    · intro q hq
      by_cases hqk : q.1 = e.2
      · have hqp : q = p := entry_unique hnd hq hp (by rw [hqk, hpk])
        have hq2 : q = (e.2, p.2) := by
          rw [hqp, ← hpk]
        rw [hq2]
        exact List.mem_cons_self _ _
      · exact List.mem_cons_of_mem _ (List.mem_filter.mpr ⟨hq, by simpa using hqk⟩)
  | none =>
    rw [cacheStep_miss c e hfind]
    have hnotin : e.2 ∉ c.entries.map (·.1) := by
      intro hmem
      obtain ⟨q, hq, hq2⟩ := List.mem_map.mp hmem
      have := List.find?_eq_none.mp hfind q hq
      rw [hq2] at this
      simp at this
    have hlen : c.entries.length + 1 ≤ CACHE_CAPACITY := by
      have hnd2 : (e.2 :: c.entries.map (·.1)).Nodup := List.nodup_cons.mpr ⟨hnotin, hnd⟩
      have hsubB : (e.2 :: c.entries.map (·.1)).toFinset ⊆ B := by
        intro x hx
        rcases List.mem_cons.mp (List.mem_toFinset.mp hx) with h1 | h1
        · rw [h1]; exact he
        · exact hsub x h1
      have hcardB := Finset.card_le_card hsubB
      rw [List.toFinset_card_of_nodup hnd2] at hcardB
      simpa using le_trans hcardB hcard
    have hlen2 : ((e.2, containsUncached e.1 e.2.1 e.2.2.1 e.2.2.2) :: c.entries).length
        ≤ CACHE_CAPACITY := by simpa using hlen
    rw [List.take_of_length_le hlen2]
    refine ⟨⟨?_, ?_⟩, ?_⟩
    · rw [List.map_cons, List.nodup_cons]
      exact ⟨hnotin, hnd⟩
    · intro x hx
      rw [List.map_cons] at hx
      rcases List.mem_cons.mp hx with h1 | h1
      · rw [h1]; exact he
      · exact hsub x h1
    · intro q hq
      exact List.mem_cons_of_mem _ hq

/-- Iterated version of cacheStep_inv_mono over a block of queries. -/
theorem foldl_cacheStep_inv_mono (B : Finset CKey) :
    ∀ (l : List (Database × CKey)) (c : Cache),
      CacheInv c B → (∀ e ∈ l, e.2 ∈ B) → B.card ≤ CACHE_CAPACITY →
      CacheInv (l.foldl cacheStep c) B ∧
        ∀ q ∈ c.entries, q ∈ (l.foldl cacheStep c).entries
  | [], c, hInv, _, _ => ⟨hInv, fun _ hq => hq⟩
  | e :: l, c, hInv, hl, hcard => by
    rw [List.foldl_cons]
    have hstep := cacheStep_inv_mono B c e hInv (hl e (List.mem_cons_self _ _)) hcard
    have hrest := foldl_cacheStep_inv_mono B l (cacheStep c e) hstep.1
      (fun e' he' => hl e' (List.mem_cons_of_mem _ he')) hcard
    exact ⟨hrest.1, fun q hq => hrest.2 q (hstep.2 q hq)⟩

/-- After a query answers true, the queried key is cached with value true. -/
theorem cacheStep_result_mem (c : Cache) (e : Database × CKey)
    (ht : (cachedContains e.1 c e.2.1 e.2.2.1 e.2.2.2).1 = true) :
    (e.2, true) ∈ (cacheStep c e).entries := by
  cases hfind : c.entries.find? (fun q => q.1 == e.2) with
  | some p =>
    rw [cacheStep_hit c e p hfind]
    have hp2 : p.2 = true := by
      rw [← cachedContains_fst_hit e.1 c e.2 p hfind]
      exact ht
    rw [← hp2]
    exact List.mem_cons_self _ _
  | none =>
    rw [cacheStep_miss c e hfind]
    have hb : containsUncached e.1 e.2.1 e.2.2.1 e.2.2.2 = true := by
      rw [← cachedContains_fst_miss e.1 c e.2 hfind]
      exact ht
    have hcap : CACHE_CAPACITY = 999999 + 1 := rfl
    rw [hcap, List.take_succ_cons, hb]
    exact List.mem_cons_self _ _

/-- The cache after i+1 queries is one step past the cache after i. -/
theorem cacheAfter_take_succ (events : List (Database × CKey)) (i : Nat)
    (e : Database × CKey) (h : listNth events i = some e) :
    cacheAfter (events.take (i + 1)) = cacheStep (cacheAfter (events.take i)) e := by
  have hsplit : events.take (i + 1) = events.take i ++ [e] := by
    rw [List.take_succ, ← listNth_eq_getElem?, h]
    rfl
  rw [hsplit]
  show List.foldl cacheStep emptyCache _ = _
  rw [List.foldl_append]
  rfl

/-- C8 counterexample: the claim fails as stated.  A trace that observes
the row (query 0 answers true), loses the row out-of-band, then queries
1,000,000 distinct other keys evicts the memoized entry from the bounded
lru_cache; the next query of the same key re-runs the SQL and answers
false within the same process. -/
theorem c8_eviction_counterexample : ¬ c8ClaimStatement := by
  intro h
  have h0 : listNth evictionTrace 0 = some (tRowDb, tKey) := rfl
  have hlast : ∀ (l : List (Database × CKey)) (x : Database × CKey),
      listNth (l ++ [x]) l.length = some x := by
    intro l x
    induction l with
    | nil => rfl
    | cons a t ih => simpa [listNth] using ih
  have hj : listNth evictionTrace (CACHE_CAPACITY + 1) = some (tEmptyDb, tKey) := by
    show listNth ((tRowDb, tKey) :: (junkEvents ++ [(tEmptyDb, tKey)])) (CACHE_CAPACITY + 1) = _
    rw [listNth]
    have h2 := hlast junkEvents (tEmptyDb, tKey)
    rwa [junk_len] at h2
  have htrue : queryResultAt evictionTrace 0 = some true := rfl
  have htail : List.take CACHE_CAPACITY (junkEvents ++ [(tEmptyDb, tKey)]) = junkEvents := by
    conv_lhs => rw [← junk_len]
    exact List.take_left _ _
  have htake : evictionTrace.take (CACHE_CAPACITY + 1) = (tRowDb, tKey) :: junkEvents := by
    show ((tRowDb, tKey) :: (junkEvents ++ [(tEmptyDb, tKey)])).take (CACHE_CAPACITY + 1) = _
    rw [List.take_succ_cons, htail]
  have hnodupJ : (junkEvents.map (fun e => e.2)).Nodup := by
    simp only [junkEvents, List.map_map]
    refine List.Nodup.map ?_ (List.nodup_range _)
    intro a b hab
    have h2 : Value.vInt (Int.ofNat a) = Value.vInt (Int.ofNat b) :=
      congrArg (fun k : CKey => k.2.2) hab
    exact Int.ofNat.inj (Value.vInt.inj h2)
  have hfreshJ : ∀ e ∈ junkEvents, ∀ p ∈ (⟨[(tKey, true)]⟩ : Cache).entries, p.1 ≠ e.2 := by
    intro e he p hp
    simp only [junkEvents, List.mem_map, List.mem_range] at he
    obtain ⟨n, hn, rfl⟩ := he
    simp only [List.mem_singleton] at hp
    subst hp
    simp [tKey]
  have hone : (⟨[(tKey, true)]⟩ : Cache).entries.length ≤ CACHE_CAPACITY := by
    show 1 ≤ CACHE_CAPACITY
    rw [CACHE_CAPACITY]
    omega
  have hfold := foldl_cacheStep_fresh junkEvents ⟨[(tKey, true)]⟩ hnodupJ hfreshJ hone
  have hrevlen :
      ((junkEvents.map (fun e => (e.2, containsUncached e.1 e.2.1 e.2.2.1 e.2.2.2))).reverse).length
        = CACHE_CAPACITY := by
    rw [List.length_reverse, List.length_map, junk_len]
  have hentries : (cacheAfter (evictionTrace.take (CACHE_CAPACITY + 1))).entries =
      (junkEvents.map (fun e => (e.2, containsUncached e.1 e.2.1 e.2.2.1 e.2.2.2))).reverse := by
    rw [htake]
    show (List.foldl cacheStep emptyCache ((tRowDb, tKey) :: junkEvents)).entries = _
    rw [List.foldl_cons]
    have hc1 : cacheStep emptyCache (tRowDb, tKey) = ⟨[(tKey, true)]⟩ := rfl
    rw [hc1, hfold]
    have htr : List.take CACHE_CAPACITY
        ((junkEvents.map (fun e => (e.2, containsUncached e.1 e.2.1 e.2.2.1 e.2.2.2))).reverse
          ++ (⟨[(tKey, true)]⟩ : Cache).entries) =
        (junkEvents.map (fun e => (e.2, containsUncached e.1 e.2.1 e.2.2.1 e.2.2.2))).reverse := by
      conv_lhs => rw [← hrevlen]
      exact List.take_left _ _
    exact htr
  have hfind : (cacheAfter (evictionTrace.take (CACHE_CAPACITY + 1))).entries.find?
      (fun q => q.1 == tKey) = none := by
    rw [hentries, List.find?_eq_none]
    intro x hx
    rw [List.mem_reverse] at hx
    simp only [junkEvents, List.map_map, List.mem_map, List.mem_range] at hx
    obtain ⟨m, hm, rfl⟩ := hx
    simp [tKey]
  have hfalse : queryResultAt evictionTrace (CACHE_CAPACITY + 1) = some false := by
    rw [queryResultAt_eq _ _ _ _ hj, cachedContains_fst_miss _ _ _ hfind]
    rfl
  have hcon := h evictionTrace 0 (CACHE_CAPACITY + 1) tRowDb tEmptyDb tKey
    (by omega) h0 hj htrue
  rw [hfalse] at hcon
  exact Bool.noConfusion (Option.some.inj hcon)

/-- C8, amended: once a _contains query of a key answers true within a
process, every later query of the same key answers true — even if the
underlying row is removed out-of-band — PROVIDED the process queries at
most CACHE_CAPACITY (1,000,000) distinct (table, key-column, key-value)
triples in total, so that the lru_cache never evicts the entry. -/
theorem c8_monotone_within_capacity (events : List (Database × CKey)) (i j : Nat)
    (db₁ db₂ : Database) (k : CKey)
    (hcap : (events.map (fun e => e.2)).dedup.length ≤ CACHE_CAPACITY)
    (hij : i < j)
    (hi : listNth events i = some (db₁, k)) (hj : listNth events j = some (db₂, k))
    (ht : queryResultAt events i = some true) :
    queryResultAt events j = some true := by
  set B := (events.map (fun e => e.2)).toFinset with hB
  have hcard : B.card ≤ CACHE_CAPACITY := by
    rw [hB, List.card_toFinset]
    exact hcap
  have hmemB : ∀ e ∈ events, e.2 ∈ B := fun e he => by
    rw [hB]
    exact List.mem_toFinset.mpr (List.mem_map_of_mem _ he)
  have hInv0 : CacheInv emptyCache B := ⟨List.nodup_nil, by intro x hx; cases hx⟩
  have hti : (cachedContains db₁ (cacheAfter (events.take i)) k.1 k.2.1 k.2.2).1 = true := by
    have hq := queryResultAt_eq events i db₁ k hi
    rw [ht] at hq
    exact (Option.some.inj hq).symm
  have hmem1 : (k, true) ∈ (cacheAfter (events.take (i + 1))).entries := by
    rw [cacheAfter_take_succ events i (db₁, k) hi]
    exact cacheStep_result_mem (cacheAfter (events.take i)) (db₁, k) hti
  have hInvI1 := foldl_cacheStep_inv_mono B (events.take (i + 1)) emptyCache hInv0
    (fun e he => hmemB e (List.take_subset _ _ he)) hcard
  have hjsplit : events.take j =
      events.take (i + 1) ++ ((events.drop (i + 1)).take (j - (i + 1))) := by
    have hjj : j = (i + 1) + (j - (i + 1)) := by omega
    conv_lhs => rw [hjj]
    exact List.take_add _ _ _
  have hmid : ∀ e ∈ (events.drop (i + 1)).take (j - (i + 1)), e.2 ∈ B :=
    fun e he => hmemB e (List.drop_subset _ _ (List.take_subset _ _ he))
  have hrun := foldl_cacheStep_inv_mono B ((events.drop (i + 1)).take (j - (i + 1)))
    (cacheAfter (events.take (i + 1))) hInvI1.1 hmid hcard
  have hcacheJ : cacheAfter (events.take j) =
      ((events.drop (i + 1)).take (j - (i + 1))).foldl cacheStep
        (cacheAfter (events.take (i + 1))) := by
    rw [hjsplit]
    show List.foldl cacheStep emptyCache _ = _
    rw [List.foldl_append]
    rfl
  have hmemJ : (k, true) ∈ (cacheAfter (events.take j)).entries := by
    rw [hcacheJ]
    exact hrun.2 _ hmem1
  have hndJ : ((cacheAfter (events.take j)).entries.map (·.1)).Nodup := by
    rw [hcacheJ]
    exact hrun.1.1
  rw [queryResultAt_eq events j db₂ k hj,
    cachedContains_fst_hit db₂ _ k (k, true) (find_entry_of_mem_nodup hndJ hmemJ)]

/-- C8 witness: on a two-event trace well within capacity — observe the
row, delete it out-of-band, ask again — the second answer is still true. -/
theorem c8_monotone_witness : queryResultAt twoEventTrace 1 = some true :=
  c8_monotone_within_capacity twoEventTrace 0 1 tRowDb tEmptyDb tKey
    (by decide) (by decide) rfl rfl rfl

/-- An integer primary-key value is not Python None. -/
theorem vInt_beq_vNull (n : Int) : (Value.vInt n == Value.vNull) = false := rfl

/-- A one-entry cache is far below the capacity. -/
theorem take_cap_one (x : CKey × Bool) : List.take CACHE_CAPACITY [x] = [x] := rfl

/-- A lookup misses when the key is not among the association keys. -/
theorem lookup_eq_none_of_not_mem_keys {α : Type} :
    ∀ (l : List (String × α)) (k : String), k ∉ l.map Prod.fst → l.lookup k = none
  | [], _, _ => rfl
  | (n, v) :: t, k, h => by
    have h1 : k ≠ n := by
      intro hk
      exact h (by rw [List.map_cons, hk]; exact List.mem_cons_self _ _)
    have h2 : k ∉ t.map Prod.fst := fun hk => h (by rw [List.map_cons]; exact List.mem_cons_of_mem _ hk)
    rw [List.lookup_cons]
    simp only [beq_eq_false_iff_ne.mpr h1]
    exact lookup_eq_none_of_not_mem_keys t k h2

/-- A lookup skips a prefix it misses in. -/
theorem lookup_append_none {α : Type} (l₁ l₂ : List (String × α)) (k : String)
    (h : l₁.lookup k = none) : (l₁ ++ l₂).lookup k = l₂.lookup k := by
  induction l₁ with
  | nil => rfl
  | cons p t ih =>
    obtain ⟨n, v⟩ := p
    rw [List.lookup_cons] at h
    rw [List.cons_append, List.lookup_cons]
    cases hbeq : (k == n) with
    | true => rw [hbeq] at h; exact absurd h (by simp)
    | false =>
      rw [hbeq] at h
      simp only []
      exact ih h

/-- Rebinding a key makes its lookup return the new value. -/
theorem lookup_updateAssoc_self {α : Type} :
    ∀ (l : List (String × α)) (k : String) (v : α), (updateAssoc l k v).lookup k = some v
  | [], k, v => by simp [updateAssoc, List.lookup_cons]
  | (n, w) :: t, k, v => by
    cases hbeq : (n == k) with
    | true =>
      simp [updateAssoc, hbeq, List.lookup_cons]
    | false =>
      have hkn : (k == n) = false :=
        beq_eq_false_iff_ne.mpr (Ne.symm (beq_eq_false_iff_ne.mp hbeq))
      simp [updateAssoc, hbeq, List.lookup_cons, hkn, lookup_updateAssoc_self t k v]

/-- Rebinding a key leaves other lookups unchanged. -/
theorem lookup_updateAssoc_other {α : Type} :
    ∀ (l : List (String × α)) (k k' : String) (v : α), k' ≠ k →
      (updateAssoc l k v).lookup k' = l.lookup k'
  | [], k, k', v, h => by
    simp [updateAssoc, List.lookup_cons, beq_eq_false_iff_ne.mpr h]
  | (n, w) :: t, k, k', v, h => by
    cases hbeq : (n == k) with
    | true =>
      have hnk : n = k := by simpa using hbeq
      have hn' : k' ≠ n := by rw [hnk]; exact h
      simp [updateAssoc, hbeq, List.lookup_cons, beq_eq_false_iff_ne.mpr h,
        beq_eq_false_iff_ne.mpr hn']
    | false =>
      cases hkn : (k' == n) with
      | true => simp [updateAssoc, hbeq, List.lookup_cons, hkn]
      | false => simp [updateAssoc, hbeq, List.lookup_cons, hkn,
          lookup_updateAssoc_other t k k' v h]

/-- An INSERT appends its row, rowid = lastrowid, to its table. -/
theorem rowsOf_dbInsert_self (db : Database) (t : String) (cols : List String)
    (vals : List Value) :
    rowsOf (dbInsert db t cols vals).1 t =
      rowsOf db t ++ [⟨(dbInsert db t cols vals).2, cols.zip vals⟩] := by
  simp only [dbInsert, rowsOf]
  rw [lookup_updateAssoc_self]
  rfl

/-- An INSERT leaves every other table unchanged. -/
theorem rowsOf_dbInsert_other (db : Database) (t t' : String) (cols : List String)
    (vals : List Value) (h : t' ≠ t) :
    rowsOf (dbInsert db t cols vals).1 t' = rowsOf db t' := by
  simp only [dbInsert, rowsOf]
  rw [lookup_updateAssoc_other _ _ _ _ h]

/-- An INSERT does not alter the schema facts. -/
theorem dbInsert_pkCols (db : Database) (t : String) (cols : List String)
    (vals : List Value) : (dbInsert db t cols vals).1.pkCols = db.pkCols := rfl

/-- Left half of a scalar field list is scalar. -/
theorem scalarFields_left {l₁ l₂ : List (String × Value)} (h : scalarFields (l₁ ++ l₂)) :
    scalarFields l₁ := fun p hp => h p (List.mem_append_left _ hp)

/-- Right half of a scalar field list is scalar. -/
theorem scalarFields_right {l₁ l₂ : List (String × Value)} (h : scalarFields (l₁ ++ l₂)) :
    scalarFields l₂ := fun p hp => h p (List.mem_append_right _ hp)

/-- A record with only scalar fields has no insert dependencies. -/
theorem filter_dep_scalar (pk? : Option String) :
    ∀ (l : List (String × Value)), scalarFields l →
      l.filter (fun f => !(pk? == some f.1) && isRecVal f.2) = []
  | [], _ => rfl
  | (n, v) :: t, h => by
    have hv : isRecVal v = false := h (n, v) (List.mem_cons_self _ _)
    have ht := filter_dep_scalar pk? t (fun p hp => h p (List.mem_cons_of_mem _ hp))
    rw [List.filter_cons]
    simp [hv, ht]

/-- A record whose only non-scalar field is one nested record has exactly
that one insert dependency. -/
theorem filter_dep_single (pk? : Option String) (pre post : List (String × Value))
    (fname tnN : String) (fieldsN : List (String × Value))
    (hs : scalarFields (pre ++ post)) (hne : (pk? == some fname) = false) :
    (pre ++ (fname, Value.vRec tnN fieldsN) :: post).filter
        (fun f => !(pk? == some f.1) && isRecVal f.2) = [(fname, Value.vRec tnN fieldsN)] := by
  rw [List.filter_append, List.filter_cons]
  rw [filter_dep_scalar pk? pre (scalarFields_left hs),
    filter_dep_scalar pk? post (scalarFields_right hs)]
  simp [hne, isRecVal]

/-- The scalar-column partition skips the nested-record field. -/
theorem filter_scalar_skip_rec (pk? : Option String) (pre post : List (String × Value))
    (fname tnN : String) (fieldsN : List (String × Value)) :
    (pre ++ (fname, Value.vRec tnN fieldsN) :: post).filter
        (fun f => !(pk? == some f.1) && !(isRecVal f.2)) =
      pre.filter (fun f => !(pk? == some f.1) && !(isRecVal f.2)) ++
        post.filter (fun f => !(pk? == some f.1) && !(isRecVal f.2)) := by
  rw [List.filter_append, List.filter_cons]
  simp [isRecVal]

/-- Evaluation of insert_or_update on a record with only scalar columns, a
non-null integer primary key not yet cached and not yet stored: the call
checks existence (caching the negative answer), then issues one INSERT of
the non-key columns and returns the store-assigned key. -/
theorem persist_scalar_insert (reg : Registry) (fuel : Nat) (tn : String)
    (fields : List (String × Value)) (pk : String) (n : Int)
    (db : Database) (cache : Cache) (log : List Stmt)
    (hs : scalarFields fields)
    (hpk : primaryKeyName reg tn (fields.map (·.1)) = some pk)
    (hlook : fields.lookup pk = some (.vInt n))
    (hfind : cache.entries.find? (fun q => q.1 == ((tableName tn, pk, Value.vInt n) : CKey))
      = none)
    (hcont : containsUncached db (tableName tn) pk (.vInt n) = false) :
    insertOrUpdate reg false true (fuel + 1) (.vRec tn fields) ⟨db, cache, log⟩ =
      (.ok (.vInt (dbInsert db (tableName tn)
          ((fields.filter (fun f => !(some pk == some f.1) && !(isRecVal f.2))).map (·.1))
          ((fields.filter (fun f => !(some pk == some f.1) && !(isRecVal f.2))).map (·.2))).2),
       ⟨(dbInsert db (tableName tn)
          ((fields.filter (fun f => !(some pk == some f.1) && !(isRecVal f.2))).map (·.1))
          ((fields.filter (fun f => !(some pk == some f.1) && !(isRecVal f.2))).map (·.2))).1,
        ⟨(((tableName tn, pk, Value.vInt n), false) :: cache.entries).take CACHE_CAPACITY⟩,
        log ++ [.insertStmt (tableName tn)
          ((fields.filter (fun f => !(some pk == some f.1) && !(isRecVal f.2))).map (·.1))
          ((fields.filter (fun f => !(some pk == some f.1) && !(isRecVal f.2))).map (·.2))]⟩) := by
  rw [insertOrUpdate]
  simp only [hpk, hlook, Bool.false_eq_true, if_false]
  rw [filter_dep_scalar (some pk) fields hs]
  simp only [List.map_nil, vInt_beq_vNull, Bool.not_false, Bool.and_self, if_true]
  simp only [cachedContains, hfind, hcont, persistDeps]
  simp [List.append_nil]

/-- A two-entry cache is far below the capacity. -/
theorem take_cap_two (x y : CKey × Bool) : List.take CACHE_CAPACITY [x, y] = [x, y] := rfl

/-- C9, amended: for a record R whose fields are scalars except one
reference field holding a nested record N (itself all-scalar), both with
non-null integer primary keys, neither yet stored or cached, in distinct
tables (null primary keys abort persist instead, see the counterexample):
persist(R) issues N's INSERT strictly before R's statement, and afterwards
both rows exist, with R's foreign-key column <field>_id holding exactly
the key assigned to N. -/
theorem c9_dependency_ordering (reg : Registry) (db : Database) (log : List Stmt) (fuel : Nat)
    (tnR tnN fname pkR pkN : String) (nR nN : Int)
    (pre post fieldsN : List (String × Value))
    (hs1 : scalarFields (pre ++ post))
    (hs2 : scalarFields fieldsN)
    (hpkR : primaryKeyName reg tnR ((pre ++ (fname, Value.vRec tnN fieldsN) :: post).map (·.1))
      = some pkR)
    (hlookR : (pre ++ (fname, Value.vRec tnN fieldsN) :: post).lookup pkR
      = some (.vInt nR))
    (hpkN : primaryKeyName reg tnN (fieldsN.map (·.1)) = some pkN)
    (hlookN : fieldsN.lookup pkN = some (.vInt nN))
    (hcontR : containsUncached db (tableName tnR) pkR (.vInt nR) = false)
    (hcontN : containsUncached db (tableName tnN) pkN (.vInt nN) = false)
    (hkne : ((tableName tnR, pkR, Value.vInt nR) : CKey) ≠ (tableName tnN, pkN, Value.vInt nN))
    (htne : tableName tnN ≠ tableName tnR)
    (hfpk : pkR ≠ fname)
    (hfid : (fname ++ "_id") ∉ (pre ++ post).map Prod.fst) :
    ∃ (kN kR : Int) (colsN colsR : List String) (valsN valsR : List Value),
      (insertOrUpdate reg false true (fuel + 2)
          (.vRec tnR (pre ++ (fname, Value.vRec tnN fieldsN) :: post))
          ⟨db, emptyCache, log⟩).2.log =
        log ++ [.insertStmt (tableName tnN) colsN valsN,
          .insertStmt (tableName tnR) colsR valsR] ∧
      (colsR.zip valsR).lookup (fname ++ "_id") = some (.vInt kN) ∧
      (insertOrUpdate reg false true (fuel + 2)
          (.vRec tnR (pre ++ (fname, Value.vRec tnN fieldsN) :: post))
          ⟨db, emptyCache, log⟩).1 = .ok (.vInt kR) ∧
      (∃ r ∈ rowsOf (insertOrUpdate reg false true (fuel + 2)
          (.vRec tnR (pre ++ (fname, Value.vRec tnN fieldsN) :: post))
          ⟨db, emptyCache, log⟩).2.db (tableName tnN), r.rowid = kN) ∧
      (∃ r ∈ rowsOf (insertOrUpdate reg false true (fuel + 2)
          (.vRec tnR (pre ++ (fname, Value.vRec tnN fieldsN) :: post))
          ⟨db, emptyCache, log⟩).2.db (tableName tnR), r.rowid = kR ∧
        Row.getCol r ((insertOrUpdate reg false true (fuel + 2)
          (.vRec tnR (pre ++ (fname, Value.vRec tnN fieldsN) :: post))
          ⟨db, emptyCache, log⟩).2.db.pkCols.lookup (tableName tnR)) (fname ++ "_id")
          = .vInt kN) := by
  have hne : ((some pkR : Option String) == some fname) = false :=
    beq_eq_false_iff_ne.mpr (fun h => hfpk (Option.some.inj h))
  have hfindN : (⟨[(((tableName tnR, pkR, Value.vInt nR) : CKey), false)]⟩ : Cache).entries.find?
      (fun q => q.1 == ((tableName tnN, pkN, Value.vInt nN) : CKey)) = none := by
    simp [beq_eq_false_iff_ne.mpr hkne]
  have hN := persist_scalar_insert reg fuel tnN fieldsN pkN nN db
    ⟨[(((tableName tnR, pkR, Value.vInt nR) : CKey), false)]⟩ log hs2 hpkN hlookN hfindN hcontN
  set colsN := (fieldsN.filter (fun f => !(some pkN == some f.1) && !(isRecVal f.2))).map (·.1)
    with hcolsN
  set valsN := (fieldsN.filter (fun f => !(some pkN == some f.1) && !(isRecVal f.2))).map (·.2)
    with hvalsN
  set kN := (dbInsert db (tableName tnN) colsN valsN).2 with hkN
  set dbN := (dbInsert db (tableName tnN) colsN valsN).1 with hdbN
  set scalsR := (pre ++ (fname, Value.vRec tnN fieldsN) :: post).filter
    (fun f => !(some pkR == some f.1) && !(isRecVal f.2)) with hscalsR
  set colsR := scalsR.map (·.1) ++ [fname ++ "_id"] with hcolsR
  set valsR := scalsR.map (·.2) ++ [Value.vInt kN] with hvalsR
  set kR := (dbInsert dbN (tableName tnR) colsR valsR).2 with hkR
  set dbR := (dbInsert dbN (tableName tnR) colsR valsR).1 with hdbR
  have hrun : insertOrUpdate reg false true (fuel + 2)
      (.vRec tnR (pre ++ (fname, Value.vRec tnN fieldsN) :: post)) ⟨db, emptyCache, log⟩ =
      (.ok (.vInt kR),
        ⟨dbR,
          ⟨[(((tableName tnN, pkN, Value.vInt nN) : CKey), false),
            (((tableName tnR, pkR, Value.vInt nR) : CKey), false)]⟩,
          log ++ [.insertStmt (tableName tnN) colsN valsN] ++
            [.insertStmt (tableName tnR) colsR valsR]⟩) := by
    rw [show fuel + 2 = (fuel + 1) + 1 from rfl, insertOrUpdate]
    simp only [hpkR, hlookR]
    rw [filter_dep_single (some pkR) pre post fname tnN fieldsN hs1 hne]
    simp only [vInt_beq_vNull, Bool.not_false, Bool.and_self, if_true, List.map_cons,
      List.map_nil]
    simp only [cachedContains]
    simp only [emptyCache, List.find?_nil, hcontR]
    rw [take_cap_one]
    simp only [persistDeps, hN, take_cap_two]
    rfl
  refine ⟨kN, kR, colsN, colsR, valsN, valsR, ?_, ?_, ?_, ?_, ?_⟩
  · rw [hrun]
    simp [List.append_assoc]
  · have hlens : (scalsR.map (·.1)).length = (scalsR.map (·.2)).length := by
      rw [List.length_map, List.length_map]
    rw [hcolsR, hvalsR, List.zip_append hlens]
    have hsub : scalsR.map (·.1) ⊆ (pre ++ post).map Prod.fst := by
      rw [hscalsR, filter_scalar_skip_rec]
      intro x hx
      rcases List.mem_map.mp hx with ⟨p, hp, rfl⟩
      rcases List.mem_append.mp hp with h1 | h1
      · exact List.mem_map_of_mem _ (List.mem_append_left _ (List.mem_of_mem_filter h1))
      · exact List.mem_map_of_mem _ (List.mem_append_right _ (List.mem_of_mem_filter h1))
    have hnone : ((scalsR.map (·.1)).zip (scalsR.map (·.2))).lookup (fname ++ "_id") = none := by
      apply lookup_eq_none_of_not_mem_keys
      rw [List.map_fst_zip _ _ (le_of_eq hlens)]
      exact fun hmem => hfid (hsub hmem)
    rw [lookup_append_none _ _ _ hnone]
    simp [List.lookup_cons]
  · rw [hrun]
  · rw [hrun]
    refine ⟨⟨kN, colsN.zip valsN⟩, ?_, rfl⟩
    show _ ∈ rowsOf dbR (tableName tnN)
    rw [hdbR, rowsOf_dbInsert_other _ _ _ _ _ htne, hdbN, hkN]
    rw [rowsOf_dbInsert_self]
    exact List.mem_append_right _ (List.mem_singleton.mpr rfl)
  · rw [hrun]
    refine ⟨⟨kR, colsR.zip valsR⟩, ?_, rfl, ?_⟩
    · show _ ∈ rowsOf dbR (tableName tnR)
      rw [hdbR, hkR, rowsOf_dbInsert_self]
      exact List.mem_append_right _ (List.mem_singleton.mpr rfl)
    · have hlens : (scalsR.map (·.1)).length = (scalsR.map (·.2)).length := by
        rw [List.length_map, List.length_map]
      have hsub : scalsR.map (·.1) ⊆ (pre ++ post).map Prod.fst := by
        rw [hscalsR, filter_scalar_skip_rec]
        intro x hx
        rcases List.mem_map.mp hx with ⟨p, hp, rfl⟩
        rcases List.mem_append.mp hp with h1 | h1
        · exact List.mem_map_of_mem _ (List.mem_append_left _ (List.mem_of_mem_filter h1))
        · exact List.mem_map_of_mem _ (List.mem_append_right _ (List.mem_of_mem_filter h1))
      have hnone : ((scalsR.map (·.1)).zip (scalsR.map (·.2))).lookup (fname ++ "_id")
          = none := by
        apply lookup_eq_none_of_not_mem_keys
        rw [List.map_fst_zip _ _ (le_of_eq hlens)]
        exact fun hmem => hfid (hsub hmem)
      rw [Row.getCol]
      rw [hcolsR, hvalsR, List.zip_append hlens, lookup_append_none _ _ _ hnone]
      simp [List.lookup_cons]

/-- C9 witness: the amended dependency-ordering theorem applied to a
concrete Webpage record (primary key 3) nesting a WebSource record
(primary key 4) on an empty store. -/
theorem c9_dependency_ordering_witness :
    ∃ (kN kR : Int) (colsN colsR : List String) (valsN valsR : List Value),
      (insertOrUpdate schemaRegistry false true 2
          (.vRec "Webpage" (wpPre ++ ("web_source", Value.vRec "WebSource" wsFields) :: wpPost))
          ⟨webDb, emptyCache, []⟩).2.log =
        [] ++ [.insertStmt (tableName "WebSource") colsN valsN,
          .insertStmt (tableName "Webpage") colsR valsR] ∧
      (colsR.zip valsR).lookup ("web_source" ++ "_id") = some (.vInt kN) ∧
      (insertOrUpdate schemaRegistry false true 2
          (.vRec "Webpage" (wpPre ++ ("web_source", Value.vRec "WebSource" wsFields) :: wpPost))
          ⟨webDb, emptyCache, []⟩).1 = .ok (.vInt kR) ∧
      (∃ r ∈ rowsOf (insertOrUpdate schemaRegistry false true 2
          (.vRec "Webpage" (wpPre ++ ("web_source", Value.vRec "WebSource" wsFields) :: wpPost))
          ⟨webDb, emptyCache, []⟩).2.db (tableName "WebSource"), r.rowid = kN) ∧
      (∃ r ∈ rowsOf (insertOrUpdate schemaRegistry false true 2
          (.vRec "Webpage" (wpPre ++ ("web_source", Value.vRec "WebSource" wsFields) :: wpPost))
          ⟨webDb, emptyCache, []⟩).2.db (tableName "Webpage"), r.rowid = kR ∧
        Row.getCol r ((insertOrUpdate schemaRegistry false true 2
          (.vRec "Webpage" (wpPre ++ ("web_source", Value.vRec "WebSource" wsFields) :: wpPost))
          ⟨webDb, emptyCache, []⟩).2.db.pkCols.lookup (tableName "Webpage"))
          ("web_source" ++ "_id") = .vInt kN) :=
  c9_dependency_ordering schemaRegistry webDb [] 0 "Webpage" "WebSource" "web_source"
    "webpage_id" "web_source_id" 3 4 wpPre wpPost wsFields
    (by decide) (by decide) rfl rfl rfl rfl rfl rfl (by decide) (by decide) (by decide)
    (by decide)
